import Mathlib

/-!
Verification of the `mycsv` CSV writer and pipeline.

The repository contains two revisions of the CSV encoder in
`csv_writer.go`:

* the string revision (`Writer` with `Delimiter Quote Escape : string`,
  records are `[]sql.RawBytes`, a `nil` slice encodes SQL NULL), and
* the rune revision (`Writer` with `Delimiter Quote Escape : rune`,
  records are `[]NullRawBytes`).

Go byte strings are modelled as `List Nat` (each element `< 256`), Go
runes as `Int` (the Go type `rune` is a signed 32-bit integer and the rune
revision tests `w.Quote < 0`).  The buffered sink (`bufio.Writer`) is
modelled explicitly with its pending buffer, its sticky error and the
bytes accepted downstream.
-/

/-- UTF-8 encoding of a code point, as produced by the Go expressions `string(r)` /
`utf8.EncodeRune`: code points below 0x80 are one byte, surrogates and
out-of-range values encode as the replacement character U+FFFD. -/
def utf8Encode (r : Nat) : List Nat :=
  if r < 0x80 then [r]
  else if r < 0x800 then [0xC0 + r / 64, 0x80 + r % 64]
  else if 0xD800 ≤ r ∧ r < 0xE000 then [0xEF, 0xBF, 0xBD]
  else if r < 0x10000 then [0xE0 + r / 4096, 0x80 + (r / 64) % 64, 0x80 + r % 64]
  else if r < 0x110000 then
    [0xF0 + r / 262144, 0x80 + (r / 4096) % 64, 0x80 + (r / 64) % 64, 0x80 + r % 64]
  else [0xEF, 0xBF, 0xBD]

/-- UTF-8 encoding of a Go `rune` (signed): negative runes are invalid
and encode as U+FFFD, as `bufio.Writer.WriteRune` does. -/
def utf8EncodeI (r : Int) : List Nat :=
  if r < 0 then [0xEF, 0xBF, 0xBD] else utf8Encode r.toNat

/-- The string revision of `Writer` (`src/csv_writer.go` lines 19-25):
delimiter, quote, escape and terminator are Go strings, kept as byte
lists.  An empty `Quote` disables quoting. -/
structure SWriter where
  Delimiter : List Nat
  Quote : List Nat
  Escape : List Nat
  Terminator : List Nat

/-- The configuration installed by `NewWriter` (`src/csv_writer.go`
lines 28-36): delimiter `,`, quote `"`, escape `\`, terminator `\n`. -/
def defaultSWriter : SWriter := ⟨[44], [34], [92], [10]⟩

/-- Per-byte emission of the string revision `Writer.Write`
(`src/csv_writer.go` lines 63-91).  The Go code switches on `string(f)`
(the UTF-8 encoding of the byte value), comparing against
`w.Delimiter`, `w.Quote`, `w.Escape`, `string(0x00)` and `string(0x0A)`
in that order; the first matching case wins. -/
def translateByte (w : SWriter) (f : Nat) : List Nat :=
  if utf8Encode f = w.Delimiter then
    if w.Quote = [] then w.Escape ++ w.Delimiter else w.Delimiter
  else if utf8Encode f = w.Quote then w.Escape ++ w.Quote
  else if utf8Encode f = w.Escape then w.Escape ++ w.Escape
  else if utf8Encode f = [0] then w.Escape ++ [48]
  else if utf8Encode f = [10] then w.Escape ++ [f]
  else [f]

/-- Emission of a whole field content by the byte loop of the string
revision `Writer.Write` (`src/csv_writer.go` lines 63-91). -/
def emitBytes (w : SWriter) : List Nat → List Nat
  | [] => []
  | f :: fs => translateByte w f ++ emitBytes w fs

/-- Emission of one record field by the string revision `Writer.Write`
(`src/csv_writer.go` lines 48-98): a `nil` field (`none`) emits the
escape string followed by the literal `N` (byte 78) and is never
quoted; otherwise the content is wrapped in the quote string whenever
`Quote` is non-empty. -/
def fieldEmit (w : SWriter) (f : Option (List Nat)) : List Nat :=
  match f with
  | none => w.Escape ++ [78]
  | some bs =>
    (if w.Quote = [] then [] else w.Quote) ++ emitBytes w bs ++
      (if w.Quote = [] then [] else w.Quote)

/-- Emission of the field loop of the string revision `Writer.Write`
(`src/csv_writer.go` lines 40-99): the delimiter is written before
every field except the first (`if n > 0`). -/
def fieldsEmit (w : SWriter) : Bool → List (Option (List Nat)) → List Nat
  | _, [] => []
  | first, f :: rest =>
    (if first then [] else w.Delimiter) ++ fieldEmit w f ++ fieldsEmit w false rest

/-- Bytes emitted by one successful call of the string revision
`Writer.Write` (`src/csv_writer.go` lines 39-108): all fields followed
by the terminator string. -/
def recordEmit (w : SWriter) (rec : List (Option (List Nat))) : List Nat :=
  fieldsEmit w true rec ++ w.Terminator

/-- The rune revision of `Writer` (`src/csv_writer.go` lines 150-156):
delimiter, quote and escape are Go runes (signed 32-bit). -/
structure RWriter where
  Delimiter : Int
  Quote : Int
  Escape : Int
  Terminator : List Nat

/-- `NullRawBytes` (`src/unnamed/part_002` lines 46-49): a byte slice
plus a validity flag; `Valid = false` is SQL NULL. -/
structure NullRawBytes where
  RawBytes : List Nat
  Valid : Bool

/-- Per-byte emission of the rune revision `Writer.Write`
(`src/csv_writer.go` lines 195-220): the switch is on `rune(byte)`,
cases `w.Delimiter`, `w.Quote`, `w.Escape`, `0x00` in that order; runes
are written through `WriteRune`, everything else through `WriteByte`.
There is no `0x0A` case in this revision. -/
def translateByteR (w : RWriter) (b : Nat) : List Nat :=
  if (b : Int) = w.Delimiter then
    if w.Quote < 0 then utf8EncodeI w.Escape ++ utf8EncodeI w.Delimiter
    else utf8EncodeI w.Delimiter
  else if (b : Int) = w.Quote then utf8EncodeI w.Escape ++ utf8EncodeI w.Quote
  else if (b : Int) = w.Escape then utf8EncodeI w.Escape ++ utf8EncodeI w.Escape
  else if b = 0 then utf8EncodeI w.Escape ++ [48]
  else [b]

/-- Field-content emission of the rune revision byte loop
(`src/csv_writer.go` lines 194-220). -/
def emitBytesR (w : RWriter) : List Nat → List Nat
  | [] => []
  | b :: bs => translateByteR w b ++ emitBytesR w bs

/-- Emission of one field by the rune revision `Writer.Write`
(`src/csv_writer.go` lines 180-227): an invalid (`Valid = false`) field
emits the fixed two-byte literal `\N` (`w.w.WriteString("\\N")`,
line 182) regardless of the configured escape; a valid field is
wrapped in the quote rune whenever `w.Quote > 0`. -/
def fieldEmitR (w : RWriter) (f : NullRawBytes) : List Nat :=
  if !f.Valid then [92, 78]
  else
    (if 0 < w.Quote then utf8EncodeI w.Quote else []) ++
      emitBytesR w f.RawBytes ++
      (if 0 < w.Quote then utf8EncodeI w.Quote else [])

/-- Field loop of the rune revision `Writer.Write`
(`src/csv_writer.go` lines 172-228): the delimiter rune is written
before every field except the first. -/
def fieldsEmitR (w : RWriter) : Bool → List NullRawBytes → List Nat
  | _, [] => []
  | first, f :: rest =>
    (if first then [] else utf8EncodeI w.Delimiter) ++ fieldEmitR w f ++
      fieldsEmitR w false rest

/-- Bytes emitted by one successful call of the rune revision
`Writer.Write` (`src/csv_writer.go` lines 171-237). -/
def recordEmitR (w : RWriter) (rec : List NullRawBytes) : List Nat :=
  fieldsEmitR w true rec ++ w.Terminator

/-- Model of `bufio.Writer` wrapping the output destination of the program:
`cap` is the buffer capacity (4096 for `bufio.NewWriter`), `n` the
pending buffer contents (`b.buf[0:b.n]`), `err` the sticky error flag,
and `out` the bytes accepted downstream.  `sinkOK = true` models a
destination accepting every write (e.g. `bytes.Buffer`); `sinkOK =
false` models the `errorWriter` of the test file, whose `Write` always returns
`(0, error)`. -/
structure BufioWriter where
  cap : Nat
  sinkOK : Bool
  n : List Nat
  err : Bool
  out : List Nat

/-- `bufio.Writer.Flush`: returns the sticky error if set, does nothing
on an empty buffer, otherwise hands the pending bytes to the
destination; on failure the error becomes sticky and the pending bytes
stay buffered (the `errorWriter` accepts 0 bytes). -/
def bFlush (b : BufioWriter) : BufioWriter × Bool :=
  if b.err then (b, true)
  else if b.n = [] then (b, false)
  else if b.sinkOK then ({ b with n := [], out := b.out ++ b.n }, false)
  else ({ b with err := true }, true)

/-- `bufio.Writer.Write` (also `WriteString`): while the data exceeds
the available space and no error is set, either write directly to the
destination (empty buffer, oversized data) or fill the buffer and
flush; with a sticky error nothing is copied and the error is
returned; otherwise the data is appended to the buffer.  Since the
first destination failure ends the loop, the loop runs at most three
iterations and is written here in closed form. -/
def bWrite (b : BufioWriter) (p : List Nat) : BufioWriter × Bool :=
  let avail := b.cap - b.n.length
  if p.length ≤ avail then
    if b.err then (b, true) else ({ b with n := b.n ++ p }, false)
  else if b.err then (b, true)
  else if b.sinkOK then
    if b.n = [] then ({ b with out := b.out ++ p }, false)
    else
      let p2 := p.drop avail
      if b.cap < p2.length then
        ({ b with n := [], out := b.out ++ b.n ++ p.take avail ++ p2 }, false)
      else ({ b with n := p2, out := b.out ++ b.n ++ p.take avail }, false)
  else
    if b.n = [] then ({ b with err := true }, true)
    else ({ b with n := b.n ++ p.take avail, err := true }, true)

/-- `bufio.Writer.WriteByte`: flushes first when no space is available,
then appends the byte. -/
def bWriteByte (b : BufioWriter) (c : Nat) : BufioWriter × Bool :=
  if b.err then (b, true)
  else if b.cap - b.n.length = 0 then
    match bFlush b with
    | (b2, true) => (b2, true)
    | (b2, false) => ({ b2 with n := b2.n ++ [c] }, false)
  else ({ b with n := b.n ++ [c] }, false)

/-- `Writer.Error` (`src/csv_writer.go` lines 117-120): a zero-length
probe write `w.w.Write(nil)` whose result is the sticky error. -/
def bErrorProbe (b : BufioWriter) : BufioWriter × Bool := bWrite b []

/-- `Writer.Flush` (`src/csv_writer.go` lines 112-114): flushes the
buffered writer and discards the returned error. -/
def wFlush (b : BufioWriter) : BufioWriter := (bFlush b).1

/-- One iteration of the byte switch of the string revision
`Writer.Write` (`src/csv_writer.go` lines 63-91), against the buffered
sink.  Where the Go code performs two writes and keeps only the second
error (`_, err = ...` twice), the first flag is discarded here as well;
the buffered writer has a sticky error, so nothing is lost.
`WriteRune` of ASCII `0` is `WriteByte(48)`. -/
def writeByteSwitch (w : SWriter) (st : BufioWriter) (f : Nat) : BufioWriter × Bool :=
  if utf8Encode f = w.Delimiter then
    if w.Quote = [] then
      let s1 := (bWrite st w.Escape).1
      bWrite s1 w.Delimiter
    else bWrite st w.Delimiter
  else if utf8Encode f = w.Quote then
    let s1 := (bWrite st w.Escape).1
    bWrite s1 w.Quote
  else if utf8Encode f = w.Escape then
    let s1 := (bWrite st w.Escape).1
    bWrite s1 w.Escape
  else if utf8Encode f = [0] then
    let s1 := (bWrite st w.Escape).1
    bWriteByte s1 48
  else if utf8Encode f = [10] then
    let s1 := (bWrite st w.Escape).1
    bWriteByte s1 f
  else bWriteByte st f

/-- The byte loop of the string revision `Writer.Write`
(`src/csv_writer.go` lines 63-91): the error of each byte is checked and
aborts the loop (`if err != nil { return }`). -/
def writeFieldBytes (w : SWriter) : BufioWriter → List Nat → BufioWriter × Bool
  | st, [] => (st, false)
  | st, f :: fs =>
    match writeByteSwitch w st f with
    | (s1, true) => (s1, true)
    | (s1, false) => writeFieldBytes w s1 fs

/-- The field loop of the string revision `Writer.Write`
(`src/csv_writer.go` lines 40-99): delimiter before every field but
the first (checked), the NULL branch writing escape + `N` with both
errors ignored (`continue`), and the quote writes around the byte loop
(checked). -/
def writeFields (w : SWriter) : BufioWriter → Bool → List (Option (List Nat)) → BufioWriter × Bool
  | st, _, [] => (st, false)
  | st, first, field :: rest =>
    match (if first then (st, false) else bWrite st w.Delimiter) with
    | (s0, true) => (s0, true)
    | (s0, false) =>
      match field with
      | none =>
        let s1 := (bWrite s0 w.Escape).1
        let s2 := (bWrite s1 [78]).1
        writeFields w s2 false rest
      | some bs =>
        match (if w.Quote = [] then (s0, false) else bWrite s0 w.Quote) with
        | (s1, true) => (s1, true)
        | (s1, false) =>
          match writeFieldBytes w s1 bs with
          | (s2, true) => (s2, true)
          | (s2, false) =>
            match (if w.Quote = [] then (s2, false) else bWrite s2 w.Quote) with
            | (s3, true) => (s3, true)
            | (s3, false) => writeFields w s3 false rest

/-- The string revision `Writer.Write` (`src/csv_writer.go` lines
39-108), returning the final sink state, the `buf` return value and
the error flag.  On an early `return` inside the loops the named
return value `buf` is still zero; on the normal path the terminator is
written (unchecked, line 102) and `buf = w.w.Buffered()` (line 105). -/
def WriterWrite (w : SWriter) (st : BufioWriter) (record : List (Option (List Nat))) :
    BufioWriter × Nat × Bool :=
  match writeFields w st true record with
  | (s, true) => (s, 0, true)
  | (s, false) =>
    let r := bWrite s w.Terminator
    (r.1, r.1.n.length, r.2)

/-- Program counter of the producer goroutine `readRows`
(`src/unnamed/part_003` lines 374-384): about to call
`rows.Next`/`rows.Scan`, ready to send on `dataChan`, or blocked
receiving from `goChan`. -/
inductive PLoc
  | fetching
  | readySend
  | awaitAck
deriving DecidableEq

/-- Program counter of the consumer goroutine `writeCSV`
(`src/unnamed/part_003` lines 403-427): blocked receiving from
`dataChan`, encoding/writing the received row, or ready to send the
advance signal on `goChan`. -/
inductive CLoc
  | awaitRecv
  | writing
  | readyAck
deriving DecidableEq

/-- Joint state of the two pipeline goroutines: their program counters
and the event counters (rows fetched from the cursor, rows sent over
`dataChan`, rows encoded by `Writer.Write`, advance signals sent over
`goChan`). -/
structure PipeSt where
  p : PLoc
  c : CLoc
  fetched : Nat
  sent : Nat
  written : Nat
  acked : Nat
deriving DecidableEq

/-- Interleaving semantics of `readRows` and `writeCSV` connected by
the unbuffered channels `dataChan` and `goChan`
(`src/unnamed/part_003` lines 259-265, 374-384, 403-427).  `fetch` is
the producer running `rows.Next(); rows.Scan(...)` (a local step that
overwrites the scan buffer), `send` is the rendezvous
`dataChan <- vals` / `for data := range dataChan`, `write` is the
consumer running `w.Write(data)` locally (plus flush check), and `ack` is the
rendezvous `goChan <- true` / `<-goChan`.  An unbuffered Go channel
blocks the sender until the receiver takes the value, so each channel
transfer is one synchronous transition of both goroutines. -/
inductive PipeStep : PipeSt → PipeSt → Prop
  | fetch (c : CLoc) (f s wr a : Nat) :
      PipeStep ⟨.fetching, c, f, s, wr, a⟩ ⟨.readySend, c, f + 1, s, wr, a⟩
  | send (f s wr a : Nat) :
      PipeStep ⟨.readySend, .awaitRecv, f, s, wr, a⟩ ⟨.awaitAck, .writing, f, s + 1, wr, a⟩
  | write (p : PLoc) (f s wr a : Nat) :
      PipeStep ⟨p, .writing, f, s, wr, a⟩ ⟨p, .readyAck, f, s, wr + 1, a⟩
  | ack (f s wr a : Nat) :
      PipeStep ⟨.awaitAck, .readyAck, f, s, wr, a⟩ ⟨.fetching, .awaitRecv, f, s, wr, a + 1⟩

/-- Start of the stream: the producer is about to fetch row 0, the
consumer is blocked on `dataChan`, nothing has happened yet. -/
def pipeInit : PipeSt := ⟨.fetching, .awaitRecv, 0, 0, 0, 0⟩

/-- States reachable from the start of the stream. -/
inductive PipeReach : PipeSt → Prop
  | init : PipeReach pipeInit
  | step {s t : PipeSt} : PipeReach s → PipeStep s t → PipeReach t

/-- Inductive invariant of the rendezvous protocol. -/
def pipeInv (st : PipeSt) : Prop :=
  (st.p = .fetching → st.fetched = st.acked ∧ st.sent = st.acked ∧ st.c = .awaitRecv) ∧
  (st.p = .readySend → st.fetched = st.acked + 1 ∧ st.sent = st.acked) ∧
  (st.p = .awaitAck → st.fetched = st.acked + 1 ∧ st.sent = st.acked + 1) ∧
  (st.c = .awaitRecv → st.written = st.sent ∧ st.acked = st.sent) ∧
  (st.c = .writing → st.sent = st.written + 1 ∧ st.sent = st.acked + 1) ∧
  (st.c = .readyAck → st.written = st.sent ∧ st.sent = st.acked + 1)


/-- `utf8.RuneStart`: a byte that is not a UTF-8 continuation byte
(`b & 0xC0 != 0x80`). -/
def runeStart (b : Nat) : Bool := b &&& 0xC0 != 0x80

/-- Go `utf8.DecodeRune` on a byte list: returns the first rune and
its encoded size; an empty input gives size 0, an invalid or truncated
encoding gives `(RuneError, 1)`.  The second-byte accept ranges follow
the Go `acceptRanges` table (`0xE0 → A0..BF`, `0xED → 80..9F`,
`0xF0 → 90..BF`, `0xF4 → 80..8F`, otherwise `80..BF`). -/
def utf8DecodeRune (p : List Nat) : Int × Nat :=
  match p with
  | [] => (0xFFFD, 0)
  | b0 :: rest =>
    if b0 < 0x80 then ((b0 : Int), 1)
    else if b0 < 0xC2 ∨ 0xF4 < b0 then (0xFFFD, 1)
    else
      match rest with
      | [] => (0xFFFD, 1)
      | b1 :: rest2 =>
        let lo := if b0 = 0xE0 then 0xA0 else if b0 = 0xF0 then 0x90 else 0x80
        let hi := if b0 = 0xED then 0x9F else if b0 = 0xF4 then 0x8F else 0xBF
        if b1 < lo ∨ hi < b1 then (0xFFFD, 1)
        else if b0 < 0xE0 then (((b0 - 0xC0) * 64 + (b1 - 0x80) : Nat), 2)
        else
          match rest2 with
          | [] => (0xFFFD, 1)
          | b2 :: rest3 =>
            if b2 < 0x80 ∨ 0xBF < b2 then (0xFFFD, 1)
            else if b0 < 0xF0 then
              (((b0 - 0xE0) * 4096 + (b1 - 0x80) * 64 + (b2 - 0x80) : Nat), 3)
            else
              match rest3 with
              | [] => (0xFFFD, 1)
              | b3 :: _ =>
                if b3 < 0x80 ∨ 0xBF < b3 then (0xFFFD, 1)
                else
                  (((b0 - 0xF0) * 262144 + (b1 - 0x80) * 4096 +
                    (b2 - 0x80) * 64 + (b3 - 0x80) : Nat), 4)

/-- Go `utf8.DecodeLastRuneInString`: decodes the final rune of the
string.  An empty string gives size 0; a final ASCII byte is returned
directly; otherwise the scan walks back at most `UTFMax` bytes to the
nearest rune-start byte, decodes from there, and any mismatch yields
`(RuneError, 1)`. -/
def utf8DecodeLastRune (p : List Nat) : Int × Nat :=
  match p.reverse with
  | [] => (0xFFFD, 0)
  | last :: earlier =>
    if last < 0x80 then ((last : Int), 1)
    else
      let start :=
        match (earlier.take 3).findIdx? (fun b => runeStart b) with
        | some i => p.length - (i + 2)
        | none => if 5 ≤ p.length then p.length - 5 else 0
      let sub := p.drop start
      let ri := utf8DecodeRune sub
      if ri.2 = sub.length then ri else (0xFFFD, 1)

/-- The symbol configuration of the rune-revision `main`
(`src/unnamed/part_002` lines 174-190): each of the delimiter, quote
and escape flag values is passed to `utf8.DecodeLastRuneInString`; the
program exits fatally (`none`) only when the returned size is zero,
otherwise the decoded last rune becomes the writer symbol. -/
def configSymbol (s : List Nat) : Option Int :=
  let ri := utf8DecodeLastRune s
  if ri.2 = 0 then none else some ri.1

/-- The delimiter configuration of the string-revision `main`
(`src/unnamed/part_003` lines 188-192): the two-character literal
`\t` is replaced by a tab, any other flag value is installed
unchanged, with no length validation. -/
def configDelimiterS (s : List Nat) : List Nat :=
  if s = [92, 116] then [9] else s


/-- The spec wording of the plain-row output shape: quote + field +
quote for each field, fields joined by the delimiter.  Defined from
the spec text of §8, to be compared with the encoder. -/
def specJoin (delim : List Nat) : List (List Nat) → List Nat
  | [] => []
  | [x] => x
  | x :: y :: ys => x ++ delim ++ specJoin delim (y :: ys)


theorem bFlush_flag_eq_err (b : BufioWriter) : (bFlush b).2 = (bFlush b).1.err := by
  unfold bFlush
  split_ifs <;> simp_all

theorem bWrite_flag_eq_err (b : BufioWriter) (p : List Nat) :
    (bWrite b p).2 = (bWrite b p).1.err := by
  unfold bWrite
  split_ifs <;> try rfl
  all_goals simp_all
  all_goals (split_ifs <;> rfl)

theorem bWriteByte_flag_eq_err (b : BufioWriter) (c : Nat) :
    (bWriteByte b c).2 = (bWriteByte b c).1.err := by
  have hfl := bFlush_flag_eq_err b
  unfold bWriteByte
  split_ifs <;> [simp_all; skip; simp_all]
  rcases hr : bFlush b with ⟨b2, fl⟩
  rw [hr] at hfl
  cases fl <;> simp_all

theorem bWrite_ok (b : BufioWriter) (p : List Nat) (hs : b.sinkOK = true)
    (he : b.err = false) :
    (bWrite b p).2 = false ∧ (bWrite b p).1.sinkOK = true ∧ (bWrite b p).1.err = false ∧
      (bWrite b p).1.cap = b.cap ∧
      (bWrite b p).1.out ++ (bWrite b p).1.n = b.out ++ b.n ++ p := by
  unfold bWrite
  split_ifs
  all_goals try simp_all [List.take_append_drop]
  all_goals split_ifs
  all_goals simp_all [List.take_append_drop]

theorem bFlush_ok (b : BufioWriter) (hs : b.sinkOK = true) (he : b.err = false) :
    (bFlush b).2 = false ∧ (bFlush b).1.sinkOK = true ∧ (bFlush b).1.err = false ∧
      (bFlush b).1.cap = b.cap ∧ (bFlush b).1.n = [] ∧
      (bFlush b).1.out = b.out ++ b.n := by
  unfold bFlush
  split_ifs with h1 h2 <;> simp_all

theorem bWriteByte_ok (b : BufioWriter) (c : Nat) (hs : b.sinkOK = true)
    (he : b.err = false) :
    (bWriteByte b c).2 = false ∧ (bWriteByte b c).1.sinkOK = true ∧
      (bWriteByte b c).1.err = false ∧ (bWriteByte b c).1.cap = b.cap ∧
      (bWriteByte b c).1.out ++ (bWriteByte b c).1.n = b.out ++ b.n ++ [c] := by
  have hfl := bFlush_ok b hs he
  unfold bWriteByte
  split_ifs with h1 h2
  · simp_all
  · rcases hr : bFlush b with ⟨b2, fl⟩
    rw [hr] at hfl
    obtain ⟨hf1, hf2, hf3, hf4, hf5, hf6⟩ := hfl
    subst hf1
    simp_all
  · simp_all [List.append_assoc]

theorem writeByteSwitch_ok (w : SWriter) (b : BufioWriter) (f : Nat)
    (hs : b.sinkOK = true) (he : b.err = false) :
    (writeByteSwitch w b f).2 = false ∧ (writeByteSwitch w b f).1.sinkOK = true ∧
      (writeByteSwitch w b f).1.err = false ∧ (writeByteSwitch w b f).1.cap = b.cap ∧
      (writeByteSwitch w b f).1.out ++ (writeByteSwitch w b f).1.n =
        b.out ++ b.n ++ translateByte w f := by
  unfold writeByteSwitch translateByte
  split_ifs with h1 h2 h3 h4 h5
  · obtain ⟨k1, k2, k3, k4, k5⟩ := bWrite_ok b w.Escape hs he
    obtain ⟨l1, l2, l3, l4, l5⟩ := bWrite_ok (bWrite b w.Escape).1 w.Delimiter k2 k3
    exact ⟨l1, l2, l3, by rw [l4, k4], by rw [l5, k5, List.append_assoc]⟩
  · exact bWrite_ok b w.Delimiter hs he
  · obtain ⟨k1, k2, k3, k4, k5⟩ := bWrite_ok b w.Escape hs he
    obtain ⟨l1, l2, l3, l4, l5⟩ := bWrite_ok (bWrite b w.Escape).1 w.Quote k2 k3
    exact ⟨l1, l2, l3, by rw [l4, k4], by rw [l5, k5, List.append_assoc]⟩
  · obtain ⟨k1, k2, k3, k4, k5⟩ := bWrite_ok b w.Escape hs he
    obtain ⟨l1, l2, l3, l4, l5⟩ := bWrite_ok (bWrite b w.Escape).1 w.Escape k2 k3
    exact ⟨l1, l2, l3, by rw [l4, k4], by rw [l5, k5, List.append_assoc]⟩
  · obtain ⟨k1, k2, k3, k4, k5⟩ := bWrite_ok b w.Escape hs he
    obtain ⟨l1, l2, l3, l4, l5⟩ := bWriteByte_ok (bWrite b w.Escape).1 48 k2 k3
    exact ⟨l1, l2, l3, by rw [l4, k4], by rw [l5, k5, List.append_assoc]⟩
  · obtain ⟨k1, k2, k3, k4, k5⟩ := bWrite_ok b w.Escape hs he
    obtain ⟨l1, l2, l3, l4, l5⟩ := bWriteByte_ok (bWrite b w.Escape).1 f k2 k3
    exact ⟨l1, l2, l3, by rw [l4, k4], by rw [l5, k5, List.append_assoc]⟩
  · exact bWriteByte_ok b f hs he

theorem writeFieldBytes_ok (w : SWriter) (bs : List Nat) :
    ∀ b : BufioWriter, b.sinkOK = true → b.err = false →
    (writeFieldBytes w b bs).2 = false ∧ (writeFieldBytes w b bs).1.sinkOK = true ∧
      (writeFieldBytes w b bs).1.err = false ∧ (writeFieldBytes w b bs).1.cap = b.cap ∧
      (writeFieldBytes w b bs).1.out ++ (writeFieldBytes w b bs).1.n =
        b.out ++ b.n ++ emitBytes w bs := by
  induction bs with
  | nil => intro b hs he; simp [writeFieldBytes, emitBytes, hs, he]
  | cons f fs ih =>
    intro b hs he
    obtain ⟨k1, k2, k3, k4, k5⟩ := writeByteSwitch_ok w b f hs he
    unfold writeFieldBytes
    rcases hr : writeByteSwitch w b f with ⟨s1, fl⟩
    rw [hr] at k1 k2 k3 k4 k5
    subst k1
    obtain ⟨l1, l2, l3, l4, l5⟩ := ih s1 k2 k3
    exact ⟨l1, l2, l3, by rw [l4, k4], by rw [l5, k5, emitBytes, List.append_assoc]⟩

theorem skipWrite_ok (c : Prop) [Decidable c] (b : BufioWriter) (p : List Nat)
    (hs : b.sinkOK = true) (he : b.err = false) :
    (if c then (b, false) else bWrite b p).2 = false ∧
      (if c then (b, false) else bWrite b p).1.sinkOK = true ∧
      (if c then (b, false) else bWrite b p).1.err = false ∧
      (if c then (b, false) else bWrite b p).1.cap = b.cap ∧
      (if c then (b, false) else bWrite b p).1.out ++
          (if c then (b, false) else bWrite b p).1.n =
        b.out ++ b.n ++ (if c then [] else p) := by
  split_ifs with h
  · simp [hs, he]
  · simpa using bWrite_ok b p hs he

theorem writeFields_ok (w : SWriter) (rec : List (Option (List Nat))) :
    ∀ (b : BufioWriter) (first : Bool), b.sinkOK = true → b.err = false →
    (writeFields w b first rec).2 = false ∧ (writeFields w b first rec).1.sinkOK = true ∧
      (writeFields w b first rec).1.err = false ∧
      (writeFields w b first rec).1.cap = b.cap ∧
      (writeFields w b first rec).1.out ++ (writeFields w b first rec).1.n =
        b.out ++ b.n ++ fieldsEmit w first rec := by
  induction rec with
  | nil => intro b first hs he; simp [writeFields, fieldsEmit, hs, he]
  | cons field rest ih =>
    intro b first hs he
    have hdel := skipWrite_ok (first = true) b w.Delimiter hs he
    rcases hr : (if first = true then (b, false) else bWrite b w.Delimiter) with ⟨s0, fl0⟩
    rw [hr] at hdel
    dsimp only at hdel
    obtain ⟨k1, k2, k3, k4, k5⟩ := hdel
    subst k1
    simp only [writeFields]
    rw [hr]
    dsimp only
    cases field with
    | none =>
      obtain ⟨e1, e2, e3, e4, e5⟩ := bWrite_ok s0 w.Escape k2 k3
      obtain ⟨n1, n2, n3, n4, n5⟩ := bWrite_ok (bWrite s0 w.Escape).1 [78] e2 e3
      obtain ⟨r1, r2, r3, r4, r5⟩ := ih (bWrite (bWrite s0 w.Escape).1 [78]).1 false n2 n3
      refine ⟨r1, r2, r3, by rw [r4, n4, e4, k4], ?_⟩
      rw [r5, n5, e5, k5, fieldsEmit, fieldEmit]
      simp [List.append_assoc]
    | some bs =>
      dsimp only
      have hq := skipWrite_ok (w.Quote = []) s0 w.Quote k2 k3
      rcases hq1 : (if w.Quote = [] then (s0, false) else bWrite s0 w.Quote) with ⟨s1, fl1⟩
      rw [hq1] at hq
      dsimp only at hq
      obtain ⟨q1, q2, q3, q4, q5⟩ := hq
      subst q1
      dsimp only
      have hc0 := writeFieldBytes_ok w bs s1 q2 q3
      rcases hc : writeFieldBytes w s1 bs with ⟨s2, fl2⟩
      rw [hc] at hc0
      dsimp only at hc0
      obtain ⟨c1, c2, c3, c4, c5⟩ := hc0
      subst c1
      dsimp only
      have hq2 := skipWrite_ok (w.Quote = []) s2 w.Quote c2 c3
      rcases hq3 : (if w.Quote = [] then (s2, false) else bWrite s2 w.Quote) with ⟨s3, fl3⟩
      rw [hq3] at hq2
      dsimp only at hq2
      obtain ⟨u1, u2, u3, u4, u5⟩ := hq2
      subst u1
      dsimp only
      obtain ⟨r1, r2, r3, r4, r5⟩ := ih s3 false u2 u3
      refine ⟨r1, r2, r3, by rw [r4, u4, c4, q4, k4], ?_⟩
      rw [r5, u5, c5, q5, k5, fieldsEmit, fieldEmit]
      simp [List.append_assoc]

theorem WriterWrite_ok (w : SWriter) (b : BufioWriter) (rec : List (Option (List Nat)))
    (hs : b.sinkOK = true) (he : b.err = false) :
    (WriterWrite w b rec).2.2 = false ∧ (WriterWrite w b rec).1.sinkOK = true ∧
      (WriterWrite w b rec).1.err = false ∧ (WriterWrite w b rec).1.cap = b.cap ∧
      (WriterWrite w b rec).1.out ++ (WriterWrite w b rec).1.n =
        b.out ++ b.n ++ recordEmit w rec ∧
      (WriterWrite w b rec).2.1 = (WriterWrite w b rec).1.n.length := by
  have hf := writeFields_ok w rec b true hs he
  rcases hr : writeFields w b true rec with ⟨s, fl⟩
  rw [hr] at hf
  dsimp only at hf
  obtain ⟨f1, f2, f3, f4, f5⟩ := hf
  subst f1
  obtain ⟨t1, t2, t3, t4, t5⟩ := bWrite_ok s w.Terminator f2 f3
  rw [WriterWrite, hr]
  dsimp only
  refine ⟨t1, t2, t3, by rw [t4, f4], ?_, rfl⟩
  rw [t5, f5, recordEmit]
  simp [List.append_assoc]

theorem bWrite_fits (b : BufioWriter) (p : List Nat) (he : b.err = false)
    (hf : b.n.length + p.length ≤ b.cap) :
    bWrite b p = ({ b with n := b.n ++ p }, false) := by
  have h : p.length ≤ b.cap - b.n.length := by omega
  simp [bWrite, h, he]

theorem bWriteByte_fits (b : BufioWriter) (c : Nat) (he : b.err = false)
    (hf : b.n.length + 1 ≤ b.cap) :
    bWriteByte b c = ({ b with n := b.n ++ [c] }, false) := by
  have h : ¬ b.cap - b.n.length = 0 := by omega
  simp [bWriteByte, he, h]

theorem skipWrite_fits (c : Prop) [Decidable c] (b : BufioWriter) (p : List Nat)
    (he : b.err = false) (hf : b.n.length + (if c then [] else p).length ≤ b.cap) :
    (if c then (b, false) else bWrite b p) =
      ({ b with n := b.n ++ (if c then [] else p) }, false) := by
  split_ifs with h
  · simp
  · rw [if_neg h] at hf
    exact bWrite_fits b p he hf

theorem bWrite_fitsL (cap : Nat) (sk : Bool) (n out p : List Nat)
    (hf : n.length + p.length ≤ cap) :
    bWrite ⟨cap, sk, n, false, out⟩ p = (⟨cap, sk, n ++ p, false, out⟩, false) :=
  bWrite_fits ⟨cap, sk, n, false, out⟩ p rfl hf

theorem bWriteByte_fitsL (cap : Nat) (sk : Bool) (n out : List Nat) (c : Nat)
    (hf : n.length + 1 ≤ cap) :
    bWriteByte ⟨cap, sk, n, false, out⟩ c = (⟨cap, sk, n ++ [c], false, out⟩, false) :=
  bWriteByte_fits ⟨cap, sk, n, false, out⟩ c rfl hf

theorem skipWrite_fitsL (c : Prop) [Decidable c] (cap : Nat) (sk : Bool)
    (n out p : List Nat) (hf : n.length + (if c then [] else p).length ≤ cap) :
    (if c then ((⟨cap, sk, n, false, out⟩ : BufioWriter), false)
      else bWrite ⟨cap, sk, n, false, out⟩ p) =
      (⟨cap, sk, n ++ (if c then [] else p), false, out⟩, false) :=
  skipWrite_fits c ⟨cap, sk, n, false, out⟩ p rfl hf

theorem writeByteSwitch_fits (w : SWriter) (cap : Nat) (sk : Bool) (n out : List Nat)
    (f : Nat) (hf : n.length + (translateByte w f).length ≤ cap) :
    writeByteSwitch w ⟨cap, sk, n, false, out⟩ f =
      (⟨cap, sk, n ++ translateByte w f, false, out⟩, false) := by
  unfold writeByteSwitch translateByte
  unfold translateByte at hf
  split_ifs at hf ⊢ with h1 h2 h3 h4 h5 h6
  all_goals try simp only [List.length_append, List.length_cons, List.length_nil] at hf
  · rw [bWrite_fitsL cap sk n out w.Escape (by omega)]
    dsimp only
    rw [bWrite_fitsL cap sk (n ++ w.Escape) out w.Delimiter
      (by simp only [List.length_append]; omega)]
    simp [List.append_assoc]
  · exact bWrite_fitsL cap sk n out w.Delimiter (by omega)
  · rw [bWrite_fitsL cap sk n out w.Escape (by omega)]
    dsimp only
    rw [bWrite_fitsL cap sk (n ++ w.Escape) out w.Quote
      (by simp only [List.length_append]; omega)]
    simp [List.append_assoc]
  · rw [bWrite_fitsL cap sk n out w.Escape (by omega)]
    dsimp only
    rw [bWrite_fitsL cap sk (n ++ w.Escape) out w.Escape
      (by simp only [List.length_append]; omega)]
    simp [List.append_assoc]
  · rw [bWrite_fitsL cap sk n out w.Escape (by omega)]
    dsimp only
    rw [bWriteByte_fitsL cap sk (n ++ w.Escape) out 48
      (by simp only [List.length_append]; omega)]
    simp [List.append_assoc]
  · rw [bWrite_fitsL cap sk n out w.Escape (by omega)]
    dsimp only
    rw [bWriteByte_fitsL cap sk (n ++ w.Escape) out f
      (by simp only [List.length_append]; omega)]
    simp [List.append_assoc]
  · exact bWriteByte_fitsL cap sk n out f (by omega)

theorem writeFieldBytes_fits (w : SWriter) (bs : List Nat) :
    ∀ (cap : Nat) (sk : Bool) (n out : List Nat),
      n.length + (emitBytes w bs).length ≤ cap →
      writeFieldBytes w ⟨cap, sk, n, false, out⟩ bs =
        (⟨cap, sk, n ++ emitBytes w bs, false, out⟩, false) := by
  induction bs with
  | nil => intro cap sk n out hf; simp [writeFieldBytes, emitBytes]
  | cons f fs ih =>
    intro cap sk n out hf
    rw [emitBytes] at hf
    simp only [List.length_append] at hf
    rw [writeFieldBytes, writeByteSwitch_fits w cap sk n out f (by omega)]
    dsimp only
    rw [ih cap sk (n ++ translateByte w f) out
      (by simp only [List.length_append]; omega)]
    simp [emitBytes, List.append_assoc]

theorem writeFields_fits (w : SWriter) (rec : List (Option (List Nat))) :
    ∀ (cap : Nat) (sk : Bool) (n out : List Nat) (first : Bool),
      n.length + (fieldsEmit w first rec).length ≤ cap →
      writeFields w ⟨cap, sk, n, false, out⟩ first rec =
        (⟨cap, sk, n ++ fieldsEmit w first rec, false, out⟩, false) := by
  induction rec with
  | nil => intro cap sk n out first hf; simp [writeFields, fieldsEmit]
  | cons field rest ih =>
    intro cap sk n out first hf
    rw [fieldsEmit] at hf
    simp only [List.length_append] at hf
    rw [writeFields, skipWrite_fitsL (first = true) cap sk n out w.Delimiter (by omega)]
    dsimp only
    cases field with
    | none =>
      rw [fieldEmit] at hf
      simp only [List.length_append, List.length_cons, List.length_nil] at hf
      dsimp only
      rw [bWrite_fitsL cap sk (n ++ if first = true then [] else w.Delimiter) out w.Escape
        (by simp only [List.length_append]; omega)]
      dsimp only
      rw [bWrite_fitsL cap sk
        ((n ++ if first = true then [] else w.Delimiter) ++ w.Escape) out [78]
        (by simp only [List.length_append, List.length_cons, List.length_nil]; omega)]
      dsimp only
      rw [ih cap sk
        ((n ++ if first = true then [] else w.Delimiter) ++ w.Escape ++ [78]) out false
        (by simp only [List.length_append, List.length_cons, List.length_nil]; omega)]
      simp [fieldsEmit, fieldEmit, List.append_assoc]
    | some bs =>
      rw [fieldEmit] at hf
      simp only [List.length_append] at hf
      dsimp only
      rw [skipWrite_fitsL (w.Quote = []) cap sk
        (n ++ if first = true then [] else w.Delimiter) out w.Quote
        (by simp only [List.length_append]; omega)]
      dsimp only
      rw [writeFieldBytes_fits w bs cap sk
        ((n ++ if first = true then [] else w.Delimiter) ++
          if w.Quote = [] then [] else w.Quote) out
        (by simp only [List.length_append]; omega)]
      dsimp only
      rw [skipWrite_fitsL (w.Quote = []) cap sk
        ((n ++ if first = true then [] else w.Delimiter) ++
          (if w.Quote = [] then [] else w.Quote) ++ emitBytes w bs) out w.Quote
        (by simp only [List.length_append]; omega)]
      dsimp only
      rw [ih cap sk
        ((n ++ if first = true then [] else w.Delimiter) ++
          (if w.Quote = [] then [] else w.Quote) ++ emitBytes w bs ++
          if w.Quote = [] then [] else w.Quote) out false
        (by simp only [List.length_append]; omega)]
      simp [fieldsEmit, fieldEmit, List.append_assoc]

theorem WriterWrite_fits (w : SWriter) (cap : Nat) (sk : Bool) (n out : List Nat)
    (rec : List (Option (List Nat)))
    (hf : n.length + (recordEmit w rec).length ≤ cap) :
    WriterWrite w ⟨cap, sk, n, false, out⟩ rec =
      (⟨cap, sk, n ++ recordEmit w rec, false, out⟩,
        (n ++ recordEmit w rec).length, false) := by
  rw [recordEmit] at hf
  simp only [List.length_append] at hf
  rw [WriterWrite, writeFields_fits w rec cap sk n out true (by omega)]
  dsimp only
  rw [bWrite_fitsL cap sk (n ++ fieldsEmit w true rec) out w.Terminator
    (by simp only [List.length_append]; omega)]
  simp [recordEmit, List.append_assoc]

theorem bWrite_sticky (b : BufioWriter) (p : List Nat) (h : b.err = true) :
    bWrite b p = (b, true) := by
  unfold bWrite
  split_ifs
  all_goals simp_all

theorem bFlush_sticky (b : BufioWriter) (h : b.err = true) : bFlush b = (b, true) := by
  unfold bFlush
  simp [h]

theorem bErrorProbe_eq (b : BufioWriter) : bErrorProbe b = (b, b.err) := by
  rcases b with ⟨cap, sk, n, err, out⟩
  unfold bErrorProbe bWrite
  cases err <;> simp

theorem writeByteSwitch_flag (w : SWriter) (s : BufioWriter) (f : Nat) :
    (writeByteSwitch w s f).2 = (writeByteSwitch w s f).1.err := by
  unfold writeByteSwitch
  split_ifs <;>
    first
      | exact bWriteByte_flag_eq_err _ _
      | exact bWrite_flag_eq_err _ _

theorem skipWrite_flag (c : Prop) [Decidable c] (b : BufioWriter) (p : List Nat) :
    (if c then (b, false) else bWrite b p).2 = true →
    (if c then (b, false) else bWrite b p).1.err = true := by
  split_ifs with hc
  · intro h
    simp at h
  · intro h
    have hb := bWrite_flag_eq_err b p
    rw [h] at hb
    exact hb.symm

theorem writeFieldBytes_flag (w : SWriter) (bs : List Nat) :
    ∀ s : BufioWriter, (writeFieldBytes w s bs).2 = true →
      (writeFieldBytes w s bs).1.err = true := by
  induction bs with
  | nil => intro s h; simp [writeFieldBytes] at h
  | cons f fs ih =>
    intro s h
    rw [writeFieldBytes] at h ⊢
    have hsw := writeByteSwitch_flag w s f
    rcases hr : writeByteSwitch w s f with ⟨s1, fl⟩
    rw [hr] at h hsw
    cases fl
    · dsimp only at h ⊢
      exact ih s1 h
    · dsimp only at hsw ⊢
      exact hsw.symm

theorem writeFields_flag (w : SWriter) (rec : List (Option (List Nat))) :
    ∀ (s : BufioWriter) (first : Bool), (writeFields w s first rec).2 = true →
      (writeFields w s first rec).1.err = true := by
  induction rec with
  | nil => intro s first h; simp [writeFields] at h
  | cons field rest ih =>
    intro s first h
    rw [writeFields] at h ⊢
    have hd := skipWrite_flag (first = true) s w.Delimiter
    rcases hr : (if first = true then (s, false) else bWrite s w.Delimiter) with ⟨s0, fl0⟩
    rw [hr] at h hd
    cases fl0
    · dsimp only at h ⊢
      cases field with
      | none => exact ih _ false h
      | some bs =>
        dsimp only at h ⊢
        have hq := skipWrite_flag (w.Quote = []) s0 w.Quote
        rcases hq1 : (if w.Quote = [] then (s0, false) else bWrite s0 w.Quote) with ⟨s1, fl1⟩
        rw [hq1] at h hq
        cases fl1
        · dsimp only at h ⊢
          have hc := writeFieldBytes_flag w bs s1
          rcases hc1 : writeFieldBytes w s1 bs with ⟨s2, fl2⟩
          rw [hc1] at h hc
          cases fl2
          · dsimp only at h ⊢
            have hq2 := skipWrite_flag (w.Quote = []) s2 w.Quote
            rcases hq3 : (if w.Quote = [] then (s2, false) else bWrite s2 w.Quote) with
              ⟨s3, fl3⟩
            rw [hq3] at h hq2
            cases fl3
            · dsimp only at h ⊢
              exact ih _ false h
            · dsimp only at hq2 ⊢
              exact hq2 rfl
          · dsimp only at hc ⊢
            exact hc rfl
        · dsimp only at hq ⊢
          exact hq rfl
    · dsimp only at hd ⊢
      exact hd rfl

theorem WriterWrite_flag_eq_err (w : SWriter) (b : BufioWriter)
    (rec : List (Option (List Nat))) :
    (WriterWrite w b rec).2.2 = (WriterWrite w b rec).1.err := by
  rw [WriterWrite]
  have hff := writeFields_flag w rec b true
  rcases hr : writeFields w b true rec with ⟨s, fl⟩
  rw [hr] at hff
  cases fl
  · dsimp only
    exact bWrite_flag_eq_err s w.Terminator
  · dsimp only at hff ⊢
    exact (hff rfl).symm

theorem pipeInv_holds {st : PipeSt} (h : PipeReach st) : pipeInv st := by
  induction h with
  | init => refine ⟨?_, ?_, ?_, ?_, ?_, ?_⟩ <;> intro h <;> simp_all [pipeInit, pipeInv]
  | step hr hs ih =>
    cases hs with
    | fetch c f s wr a =>
      obtain ⟨i1, i2, i3, i4, i5, i6⟩ := ih
      have hh := i1 rfl
      refine ⟨?_, ?_, ?_, ?_, ?_, ?_⟩ <;> intro h <;> simp_all
    | send f s wr a =>
      obtain ⟨i1, i2, i3, i4, i5, i6⟩ := ih
      have h2 := i2 rfl
      have h4 := i4 rfl
      refine ⟨?_, ?_, ?_, ?_, ?_, ?_⟩ <;> intro h <;> simp_all
    | write p f s wr a =>
      obtain ⟨i1, i2, i3, i4, i5, i6⟩ := ih
      have h5 := i5 rfl
      refine ⟨?_, ?_, ?_, ?_, ?_, ?_⟩ <;> intro h <;> simp_all
    | ack f s wr a =>
      obtain ⟨i1, i2, i3, i4, i5, i6⟩ := ih
      have h3 := i3 rfl
      have h6 := i6 rfl
      refine ⟨?_, ?_, ?_, ?_, ?_, ?_⟩ <;> intro h <;> simp_all

theorem utf8DecodeLastRune_size_pos (s : List Nat) (hne : s ≠ []) :
    (utf8DecodeLastRune s).2 ≠ 0 := by
  have hlen : s.length ≠ 0 := by
    simpa using fun h => hne (List.length_eq_zero.mp h)
  have key : ∀ start : Nat, start < s.length →
      (if (utf8DecodeRune (s.drop start)).2 = (s.drop start).length
        then utf8DecodeRune (s.drop start) else ((0xFFFD : Int), 1)).2 ≠ 0 := by
    intro start hst
    split_ifs with he
    · rw [he]
      simp only [List.length_drop]
      omega
    · simp
  unfold utf8DecodeLastRune
  rcases hrev : s.reverse with _ | ⟨last, earlier⟩
  · exact absurd (List.reverse_eq_nil_iff.mp hrev) hne
  · dsimp only
    by_cases hl : last < 0x80
    · rw [if_pos hl]
      simp
    · rw [if_neg hl]
      apply key
      rcases hidx : (earlier.take 3).findIdx? (fun b => runeStart b) with _ | i
      · dsimp only
        split_ifs with h5
        · exact Nat.sub_lt (by omega) (by omega)
        · omega
      · dsimp only
        exact Nat.sub_lt (by omega) (by omega)

theorem utf8Encode_ascii (b : Nat) (h : b < 128) : utf8Encode b = [b] := by
  simp [utf8Encode, h]

theorem utf8Encode_single (f c : Nat) (h : utf8Encode f = [c]) : f = c := by
  unfold utf8Encode at h
  split_ifs at h <;> simp_all

/-- Literal emission: a byte matching none of the special cases of the
string-revision switch is written back unchanged. -/
theorem translateByte_literal (w : SWriter) (b : Nat)
    (hd : utf8Encode b ≠ w.Delimiter) (hq : utf8Encode b ≠ w.Quote)
    (he : utf8Encode b ≠ w.Escape) (h0 : b ≠ 0) (h10 : b ≠ 10) :
    translateByte w b = [b] := by
  have g0 : utf8Encode b ≠ [0] := fun hc => h0 (utf8Encode_single b 0 hc)
  have g10 : utf8Encode b ≠ [10] := fun hc => h10 (utf8Encode_single b 10 hc)
  simp [translateByte, hd, hq, he, g0, g10]

theorem emitBytes_literal (w : SWriter) (bs : List Nat)
    (h : ∀ b ∈ bs, utf8Encode b ≠ w.Delimiter ∧ utf8Encode b ≠ w.Quote ∧
      utf8Encode b ≠ w.Escape ∧ b ≠ 0 ∧ b ≠ 10) :
    emitBytes w bs = bs := by
  induction bs with
  | nil => rfl
  | cons b bs ih =>
    obtain ⟨h1, h2, h3, h4, h5⟩ := h b (List.mem_cons_self b bs)
    rw [emitBytes, translateByte_literal w b h1 h2 h3 h4 h5,
      ih fun x hx => h x (List.mem_cons_of_mem b hx)]
    rfl

/-- Literal emission in the rune revision: a byte matching none of
the switch cases is written back unchanged. -/
theorem translateByteR_literal (w : RWriter) (b : Nat)
    (hd : (b : Int) ≠ w.Delimiter) (hq : (b : Int) ≠ w.Quote)
    (he : (b : Int) ≠ w.Escape) (h0 : b ≠ 0) :
    translateByteR w b = [b] := by
  simp [translateByteR, hd, hq, he, h0]

theorem emitBytesR_literal (w : RWriter) (bs : List Nat)
    (h : ∀ b ∈ bs, (b : Int) ≠ w.Delimiter ∧ (b : Int) ≠ w.Quote ∧
      (b : Int) ≠ w.Escape ∧ b ≠ 0) :
    emitBytesR w bs = bs := by
  induction bs with
  | nil => rfl
  | cons b bs ih =>
    obtain ⟨h1, h2, h3, h4⟩ := h b (List.mem_cons_self b bs)
    rw [emitBytesR, translateByteR_literal w b h1 h2 h3 h4,
      ih fun x hx => h x (List.mem_cons_of_mem b hx)]
    rfl

theorem specJoin_one (d x : List Nat) : specJoin d [x] = x := rfl

theorem specJoin_cons2 (d : List Nat) (x y : List Nat) (ys : List (List Nat)) :
    specJoin d (x :: y :: ys) = x ++ d ++ specJoin d (y :: ys) := rfl

theorem c3_string_join (w : SWriter) (hQ : w.Quote ≠ []) :
    ∀ (x : List Nat) (xs : List (List Nat)),
      (∀ bs ∈ x :: xs, ∀ b ∈ bs, utf8Encode b ≠ w.Delimiter ∧ utf8Encode b ≠ w.Quote ∧
        utf8Encode b ≠ w.Escape ∧ b ≠ 0 ∧ b ≠ 10) →
      fieldEmit w (some x) ++ fieldsEmit w false (xs.map some) =
        specJoin w.Delimiter ((x :: xs).map fun bs => w.Quote ++ bs ++ w.Quote) := by
  intro x xs
  induction xs generalizing x with
  | nil =>
    intro h
    have hx := emitBytes_literal w x (h x (List.mem_cons_self x []))
    simp [specJoin_one, fieldsEmit, fieldEmit, hQ, hx]
  | cons y ys ih =>
    intro h
    have hx := emitBytes_literal w x (h x (List.mem_cons_self x (y :: ys)))
    have hgx : fieldEmit w (some x) = w.Quote ++ x ++ w.Quote := by
      simp [fieldEmit, hQ, hx]
    have hrec := ih y fun bs hbs => h bs (List.mem_cons_of_mem x hbs)
    calc fieldEmit w (some x) ++ fieldsEmit w false ((y :: ys).map some)
        = (w.Quote ++ x ++ w.Quote) ++ w.Delimiter ++
            (fieldEmit w (some y) ++ fieldsEmit w false (ys.map some)) := by
          rw [hgx, List.map_cons, fieldsEmit]
          simp [List.append_assoc]
      _ = (w.Quote ++ x ++ w.Quote) ++ w.Delimiter ++
            specJoin w.Delimiter ((y :: ys).map fun bs => w.Quote ++ bs ++ w.Quote) := by
          rw [hrec]
      _ = specJoin w.Delimiter ((x :: y :: ys).map fun bs => w.Quote ++ bs ++ w.Quote) :=
          rfl

theorem c3_rune_join (w : RWriter) (hQ : 0 < w.Quote) :
    ∀ (x : List Nat) (xs : List (List Nat)),
      (∀ bs ∈ x :: xs, ∀ b ∈ bs, (b : Int) ≠ w.Delimiter ∧ (b : Int) ≠ w.Quote ∧
        (b : Int) ≠ w.Escape ∧ b ≠ 0) →
      fieldEmitR w ⟨x, true⟩ ++ fieldsEmitR w false (xs.map fun bs => ⟨bs, true⟩) =
        specJoin (utf8EncodeI w.Delimiter)
          ((x :: xs).map fun bs => utf8EncodeI w.Quote ++ bs ++ utf8EncodeI w.Quote) := by
  intro x xs
  induction xs generalizing x with
  | nil =>
    intro h
    have hx := emitBytesR_literal w x (h x (List.mem_cons_self x []))
    simp [specJoin_one, fieldsEmitR, fieldEmitR, hQ, hx]
  | cons y ys ih =>
    intro h
    have hx := emitBytesR_literal w x (h x (List.mem_cons_self x (y :: ys)))
    have hgx : fieldEmitR w ⟨x, true⟩ =
        utf8EncodeI w.Quote ++ x ++ utf8EncodeI w.Quote := by
      simp [fieldEmitR, hQ, hx]
    have hrec := ih y fun bs hbs => h bs (List.mem_cons_of_mem x hbs)
    calc fieldEmitR w ⟨x, true⟩ ++
          fieldsEmitR w false ((y :: ys).map fun bs => ⟨bs, true⟩)
        = (utf8EncodeI w.Quote ++ x ++ utf8EncodeI w.Quote) ++ utf8EncodeI w.Delimiter ++
            (fieldEmitR w ⟨y, true⟩ ++
              fieldsEmitR w false (ys.map fun bs => ⟨bs, true⟩)) := by
          rw [hgx, List.map_cons, fieldsEmitR]
          simp [List.append_assoc]
      _ = (utf8EncodeI w.Quote ++ x ++ utf8EncodeI w.Quote) ++ utf8EncodeI w.Delimiter ++
            specJoin (utf8EncodeI w.Delimiter)
              ((y :: ys).map fun bs => utf8EncodeI w.Quote ++ bs ++ utf8EncodeI w.Quote) := by
          rw [hrec]
      _ = specJoin (utf8EncodeI w.Delimiter)
            ((x :: y :: ys).map fun bs => utf8EncodeI w.Quote ++ bs ++ utf8EncodeI w.Quote) :=
          rfl

/-- C1 (counterexample): with delimiter and quote both configured as
`,` (and escape `\`), a field consisting of the quote-symbol byte is
matched by the delimiter case first and emitted with no escape at all,
so the output of `Writer.Write` contains zero escape symbols instead
of exactly one before the occurrence. -/
theorem c1_degenerate_config_unescaped_quote :
    (recordEmit ⟨[44], [44], [92], [10]⟩ [some [44]]).count 92 = 0 := by decide

/-- C1 (amended): provided the delimiter, quote and escape are
pairwise distinct single ASCII characters (and the delimiter is not
NUL), every occurrence of the quote byte, the escape byte or NUL in a
non-null field is emitted as exactly one escape symbol followed by the
re-emitted byte (ASCII `0` for NUL), in both the string and the rune
revision of `Writer.Write`; the field content is emitted byte by byte
through this translation between the two quotes. -/
theorem c1_special_bytes_escaped_once :
    (∀ (w : SWriter) (q e : Nat), w.Quote = [q] → w.Escape = [e] →
      0 < q → q < 128 → 0 < e → e < 128 → q ≠ e →
      w.Delimiter ≠ [q] → w.Delimiter ≠ [e] → w.Delimiter ≠ [0] →
      translateByte w q = [e, q] ∧ translateByte w e = [e, e] ∧
        translateByte w 0 = [e, 48] ∧
        (∀ bs, fieldEmit w (some bs) = [q] ++ emitBytes w bs ++ [q])) ∧
    (∀ (w : RWriter) (q e : Nat), w.Quote = (q : Int) → w.Escape = (e : Int) →
      0 < q → q < 128 → 0 < e → e < 128 → q ≠ e →
      w.Delimiter ≠ (q : Int) → w.Delimiter ≠ (e : Int) → w.Delimiter ≠ (0 : Int) →
      translateByteR w q = [e, q] ∧ translateByteR w e = [e, e] ∧
        translateByteR w 0 = [e, 48]) := by
  constructor
  · intro w q e hQ hE hq0 hq128 he0 he128 hqe hDq hDe hD0
    have hq8 : utf8Encode q = [q] := utf8Encode_ascii q hq128
    have he8 : utf8Encode e = [e] := utf8Encode_ascii e he128
    have h08 : utf8Encode 0 = [0] := rfl
    have hd1 : ¬ utf8Encode q = w.Delimiter := by
      rw [hq8]
      exact fun hc => hDq hc.symm
    have hd2 : ¬ utf8Encode e = w.Delimiter := by
      rw [he8]
      exact fun hc => hDe hc.symm
    have hd3 : ¬ utf8Encode 0 = w.Delimiter := by
      rw [h08]
      exact fun hc => hD0 hc.symm
    have hq1 : utf8Encode q = w.Quote := by rw [hq8, hQ]
    have hq2 : ¬ utf8Encode e = w.Quote := by
      rw [he8, hQ]
      intro hc
      injection hc with h1 _
      exact hqe h1.symm
    have hq3 : ¬ utf8Encode 0 = w.Quote := by
      rw [h08, hQ]
      intro hc
      have : (0 : Nat) = q := by simpa using hc
      omega
    have he2 : utf8Encode e = w.Escape := by rw [he8, hE]
    have he3 : ¬ utf8Encode 0 = w.Escape := by
      rw [h08, hE]
      intro hc
      have : (0 : Nat) = e := by simpa using hc
      omega
    have hqne : w.Quote ≠ [] := by rw [hQ]; simp
    refine ⟨?_, ?_, ?_, ?_⟩
    · unfold translateByte
      rw [if_neg hd1, if_pos hq1, hQ, hE]
      rfl
    · unfold translateByte
      rw [if_neg hd2, if_neg hq2, if_pos he2, hE]
      rfl
    · unfold translateByte
      rw [if_neg hd3, if_neg hq3, if_neg he3, if_pos h08, hE]
      rfl
    · intro bs
      simp [fieldEmit, hqne, hQ]
  · intro w q e hQ hE hq0 hq128 he0 he128 hqe hDq hDe hD0
    have hq8 : utf8EncodeI (q : Int) = [q] := by
      simp [utf8EncodeI, utf8Encode_ascii q hq128]
    have he8 : utf8EncodeI (e : Int) = [e] := by
      simp [utf8EncodeI, utf8Encode_ascii e he128]
    have hd1 : ¬ ((q : Nat) : Int) = w.Delimiter := fun hc => hDq hc.symm
    have hd2 : ¬ ((e : Nat) : Int) = w.Delimiter := fun hc => hDe hc.symm
    have hd3 : ¬ ((0 : Nat) : Int) = w.Delimiter := by
      intro hc
      exact hD0 (by simpa using hc.symm)
    have hq2 : ¬ ((e : Nat) : Int) = w.Quote := by
      rw [hQ]
      intro hc
      have : e = q := by exact_mod_cast hc
      exact hqe this.symm
    have hq3 : ¬ ((0 : Nat) : Int) = w.Quote := by
      rw [hQ]
      intro hc
      have : (0 : Nat) = q := by exact_mod_cast hc
      omega
    have he3 : ¬ ((0 : Nat) : Int) = w.Escape := by
      rw [hE]
      intro hc
      have : (0 : Nat) = e := by exact_mod_cast hc
      omega
    refine ⟨?_, ?_, ?_⟩
    · unfold translateByteR
      rw [if_neg hd1, if_pos hQ.symm, hQ, hE, hq8, he8]
      rfl
    · unfold translateByteR
      rw [if_neg hd2, if_neg hq2, if_pos hE.symm, hE, he8]
      rfl
    · unfold translateByteR
      rw [if_neg hd3, if_neg hq3, if_neg he3, if_pos rfl, hE, he8]
      rfl

/-- C1 (witness): all hypotheses of the amended statement hold for
the default configuration. -/
theorem c1_special_bytes_escaped_once_witness :
    translateByte defaultSWriter 34 = [92, 34] ∧
      translateByteR ⟨44, 34, 92, [10]⟩ 34 = [92, 34] :=
  ⟨(c1_special_bytes_escaped_once.1 defaultSWriter 34 92 rfl rfl (by omega) (by omega)
      (by omega) (by omega) (by omega) (by decide) (by decide) (by decide)).1,
    (c1_special_bytes_escaped_once.2 ⟨44, 34, 92, [10]⟩ 34 92 rfl rfl (by omega) (by omega)
      (by omega) (by omega) (by omega) (by decide) (by decide) (by decide)).1⟩

/-- C2 (counterexample): in the rune revision, with escape
reconfigured to `#` (35), a null field still encodes to the fixed
literal `\N` (92, 78) rather than `#N` (35, 78) — the marker does not
track the configured escape symbol. -/
theorem c2_rune_null_marker_fixed :
    recordEmitR ⟨44, 34, 35, [10]⟩ [⟨[0], false⟩] = [92, 78, 10] ∧
      recordEmitR ⟨44, 34, 35, [10]⟩ [⟨[0], false⟩] ≠ [35, 78, 10] := by decide

/-- C2 (amended): in the string revision, a null field encodes as the
configured escape string followed by `N` (byte 78), with no
surrounding quotes, for every configuration of delimiter, quote,
escape and terminator; in the rune revision, a null field encodes as
the fixed two-byte literal `\N` regardless of the configured
symbols. -/
theorem c2_null_marker :
    (∀ w : SWriter, fieldEmit w none = w.Escape ++ [78]) ∧
    (∀ w : SWriter, recordEmit w [none] = w.Escape ++ [78] ++ w.Terminator) ∧
    (∀ (w : RWriter) (bs : List Nat), fieldEmitR w ⟨bs, false⟩ = [92, 78]) ∧
    (∀ (w : RWriter) (bs : List Nat),
      recordEmitR w [⟨bs, false⟩] = [92, 78] ++ w.Terminator) := by
  refine ⟨fun w => rfl, fun w => ?_, fun w bs => rfl, fun w bs => ?_⟩
  · simp [recordEmit, fieldsEmit, fieldEmit]
  · simp [recordEmitR, fieldsEmitR, fieldEmitR]

/-- C3 (counterexample): in the string revision, a field holding only
the line-feed byte 0x0A — which is outside the claimed special set
{delimiter, quote, escape, NUL} under the default configuration — is
emitted with an inserted escape byte, so the line is not
quote + field + quote + terminator. -/
theorem c3_linefeed_escaped_string_revision :
    recordEmit defaultSWriter [some [10]] = [34, 92, 10, 34, 10] ∧
      recordEmit defaultSWriter [some [10]] ≠ [34, 10, 34, 10] := by decide

/-- C3 (amended): for rows of non-null fields whose bytes match none
of delimiter, quote, escape or NUL — and, in the string revision only,
also contain no 0x0A byte, which that revision additionally escapes —
the line produced by `Writer.Write` with quoting enabled is exactly
quote + field + quote for each field, joined by the delimiter,
followed by the terminator. -/
theorem c3_plain_rows_identity :
    (∀ (w : SWriter) (bss : List (List Nat)), w.Quote ≠ [] →
      (∀ bs ∈ bss, ∀ b ∈ bs, utf8Encode b ≠ w.Delimiter ∧ utf8Encode b ≠ w.Quote ∧
        utf8Encode b ≠ w.Escape ∧ b ≠ 0 ∧ b ≠ 10) →
      recordEmit w (bss.map some) =
        specJoin w.Delimiter (bss.map fun bs => w.Quote ++ bs ++ w.Quote) ++
          w.Terminator) ∧
    (∀ (w : RWriter) (bss : List (List Nat)), 0 < w.Quote →
      (∀ bs ∈ bss, ∀ b ∈ bs, (b : Int) ≠ w.Delimiter ∧ (b : Int) ≠ w.Quote ∧
        (b : Int) ≠ w.Escape ∧ b ≠ 0) →
      recordEmitR w (bss.map fun bs => ⟨bs, true⟩) =
        specJoin (utf8EncodeI w.Delimiter)
          (bss.map fun bs => utf8EncodeI w.Quote ++ bs ++ utf8EncodeI w.Quote) ++
          w.Terminator) := by
  constructor
  · intro w bss hQ h
    cases bss with
    | nil => rfl
    | cons x xs =>
      rw [recordEmit, List.map_cons, fieldsEmit, ← c3_string_join w hQ x xs h]
      simp
  · intro w bss hQ h
    cases bss with
    | nil => rfl
    | cons x xs =>
      rw [recordEmitR, List.map_cons, fieldsEmitR, ← c3_rune_join w hQ x xs h]
      simp

/-- C3 (witness): the amended statement applied to a concrete
two-field row under the default configurations. -/
theorem c3_plain_rows_identity_witness :
    recordEmit defaultSWriter [some [97, 98], some [99]] =
      specJoin defaultSWriter.Delimiter
        ([[97, 98], [99]].map fun bs =>
          defaultSWriter.Quote ++ bs ++ defaultSWriter.Quote) ++
        defaultSWriter.Terminator ∧
    recordEmitR ⟨44, 34, 92, [10]⟩ ([[97]].map fun bs => ⟨bs, true⟩) =
      specJoin (utf8EncodeI (44 : Int))
        ([[97]].map fun bs => utf8EncodeI (34 : Int) ++ bs ++ utf8EncodeI (34 : Int)) ++
        [10] :=
  ⟨c3_plain_rows_identity.1 defaultSWriter [[97, 98], [99]] (by decide) (by decide),
    c3_plain_rows_identity.2 ⟨44, 34, 92, [10]⟩ [[97]] (by decide) (by decide)⟩

/-- C4: a delimiter byte inside a non-null field is emitted literally
when a quote symbol is configured and as escape-then-delimiter when
quoting is disabled (string revision: empty quote; rune revision:
negative quote), and under quoting disabled with defaults otherwise
the field `a,b` produces `a\,b` + terminator. -/
theorem c4_delimiter_byte_modes :
    (∀ (w : SWriter) (d : Nat), w.Delimiter = [d] → d < 128 →
      (w.Quote ≠ [] → translateByte w d = [d]) ∧
      (w.Quote = [] → translateByte w d = w.Escape ++ [d])) ∧
    (∀ (w : RWriter) (d : Nat), w.Delimiter = (d : Int) → d < 128 →
      (¬ w.Quote < 0 → translateByteR w d = [d]) ∧
      (w.Quote < 0 → translateByteR w d = utf8EncodeI w.Escape ++ [d])) ∧
    recordEmit ⟨[44], [], [92], [10]⟩ [some [97, 44, 98]] = [97, 92, 44, 98, 10] := by
  refine ⟨?_, ?_, by decide⟩
  · intro w d hD hd128
    have hd8 : utf8Encode d = w.Delimiter := by rw [utf8Encode_ascii d hd128, hD]
    constructor
    · intro hq
      unfold translateByte
      rw [if_pos hd8, if_neg hq, hD]
    · intro hq
      unfold translateByte
      rw [if_pos hd8, if_pos hq, hD]
  · intro w d hD hd128
    have hd8 : ((d : Nat) : Int) = w.Delimiter := hD.symm
    have hde : utf8EncodeI w.Delimiter = [d] := by
      rw [hD]
      simp [utf8EncodeI, utf8Encode_ascii d hd128]
    constructor
    · intro hq
      unfold translateByteR
      rw [if_pos hd8, if_neg hq, hde]
    · intro hq
      unfold translateByteR
      rw [if_pos hd8, if_pos hq, hde]

/-- C4 (witness): the two modes at concrete configurations. -/
theorem c4_delimiter_byte_modes_witness :
    translateByte defaultSWriter 44 = [44] ∧
      translateByte ⟨[44], [], [92], [10]⟩ 44 = [92] ++ [44] ∧
      translateByteR ⟨44, 34, 92, [10]⟩ 44 = [44] ∧
      translateByteR ⟨44, -1, 92, [10]⟩ 44 = utf8EncodeI 92 ++ [44] :=
  ⟨(c4_delimiter_byte_modes.1 defaultSWriter 44 rfl (by omega)).1 (by decide),
    (c4_delimiter_byte_modes.1 ⟨[44], [], [92], [10]⟩ 44 rfl (by omega)).2 rfl,
    (c4_delimiter_byte_modes.2.1 ⟨44, 34, 92, [10]⟩ 44 rfl (by omega)).1 (by decide),
    (c4_delimiter_byte_modes.2.1 ⟨44, -1, 92, [10]⟩ 44 rfl (by omega)).2 (by decide)⟩

/-- C10: with a quote symbol configured, a zero-length non-null field
emits opening quote immediately followed by closing quote, while a
null field emits escape + `N`; for single-character quote and escape
with quote distinct from escape these two encodings differ, and under
defaults the record outputs are `""` + newline versus `\N` + newline. -/
theorem c10_empty_field_quotes :
    (∀ w : SWriter, w.Quote ≠ [] → fieldEmit w (some []) = w.Quote ++ w.Quote) ∧
    (∀ w : SWriter, fieldEmit w none = w.Escape ++ [78]) ∧
    (∀ (w : SWriter) (q e : Nat), w.Quote = [q] → w.Escape = [e] →
      w.Quote ≠ w.Escape → fieldEmit w (some []) ≠ fieldEmit w none) ∧
    recordEmit defaultSWriter [some []] = [34, 34, 10] ∧
    recordEmit defaultSWriter [none] = [92, 78, 10] := by
  refine ⟨?_, fun w => rfl, ?_, by decide, by decide⟩
  · intro w hq
    simp [fieldEmit, emitBytes, hq]
  · intro w q e hQ hE hne
    rw [fieldEmit, fieldEmit, hQ, hE]
    simp [emitBytes]
    intro hc
    intro h78
    rw [hc] at hQ
    exact hne (hQ.trans hE.symm)

/-- C10 (witness): the empty-field and distinguishability parts at the
default configuration. -/
theorem c10_empty_field_quotes_witness :
    fieldEmit defaultSWriter (some []) = defaultSWriter.Quote ++ defaultSWriter.Quote ∧
      fieldEmit defaultSWriter (some []) ≠ fieldEmit defaultSWriter none :=
  ⟨c10_empty_field_quotes.1 defaultSWriter (by decide),
    c10_empty_field_quotes.2.2.1 defaultSWriter 34 92 rfl rfl (by decide)⟩

/-- C5 (counterexample): on an early error return (failing sink,
capacity 2, record `abc`), the named return value `buf` was never set,
so `Writer.Write` returns 0 while the pending buffer holds 2 bytes —
the returned integer does not equal the pending-buffer size. -/
theorem c5_error_return_zero :
    (WriterWrite defaultSWriter ⟨2, false, [], false, []⟩ [some [97, 98, 99]]).2.1 ≠
      ((WriterWrite defaultSWriter ⟨2, false, [], false, []⟩
        [some [97, 98, 99]]).1).n.length := by decide

/-- C5 (amended): whenever `Writer.Write` returns without error, the
returned integer equals the number of bytes pending in the sink
buffer at the moment of return; and after a `Flush`, the value
returned by the next `Write` of a row that fits the buffer is exactly
the encoded byte count of that row, not a running total. -/
theorem c5_returns_buffered_bytes :
    (∀ (w : SWriter) (st : BufioWriter) (rec : List (Option (List Nat))),
      (WriterWrite w st rec).2.2 = false →
      (WriterWrite w st rec).2.1 = (WriterWrite w st rec).1.n.length) ∧
    (∀ (w : SWriter) (cap : Nat) (n out : List Nat) (rec : List (Option (List Nat))),
      (recordEmit w rec).length ≤ cap →
      (WriterWrite w (wFlush ⟨cap, true, n, false, out⟩) rec).2.1 =
        (recordEmit w rec).length) := by
  constructor
  · intro w st rec h
    rw [WriterWrite] at h ⊢
    rcases hr : writeFields w st true rec with ⟨s, fl⟩
    rw [hr] at h
    cases fl
    · rfl
    · simp at h
  · intro w cap n out rec hf
    have hflush : wFlush ⟨cap, true, n, false, out⟩ = ⟨cap, true, [], false, out ++ n⟩ := by
      unfold wFlush bFlush
      split_ifs with h1 h2 <;> simp_all
    rw [hflush, WriterWrite_fits w cap true [] (out ++ n) rec (by simpa using hf)]
    simp

/-- C5 (witness): both amended parts at concrete inputs. -/
theorem c5_returns_buffered_bytes_witness :
    (WriterWrite defaultSWriter ⟨16, true, [], false, []⟩ [some [97]]).2.1 =
      ((WriterWrite defaultSWriter ⟨16, true, [], false, []⟩ [some [97]]).1).n.length ∧
    (WriterWrite defaultSWriter (wFlush ⟨16, true, [97, 98], false, []⟩) [some [97]]).2.1 =
      (recordEmit defaultSWriter [some [97]]).length :=
  ⟨c5_returns_buffered_bytes.1 defaultSWriter ⟨16, true, [], false, []⟩ [some [97]]
      (by decide),
    c5_returns_buffered_bytes.2 defaultSWriter 16 [97, 98] [] [some [97]] (by decide)⟩

/-- C6: `Writer.Write` returns a non-nil error exactly when the sticky
sink error is set after the call (any underlying write failure during
the call sets it); `Writer.Error` is a zero-length probe write that
returns the sticky error without changing the sink state or emitting
any byte downstream (nil when no write has failed); and once the
sticky error is set, `Flush` and further writes return it without
sending anything downstream. -/
theorem c6_sticky_write_errors :
    (∀ (w : SWriter) (st : BufioWriter) (rec : List (Option (List Nat))),
      (WriterWrite w st rec).2.2 = (WriterWrite w st rec).1.err) ∧
    (∀ st : BufioWriter, bErrorProbe st = (st, st.err)) ∧
    (∀ st : BufioWriter, st.err = true → bFlush st = (st, true)) ∧
    (∀ (st : BufioWriter) (p : List Nat), st.err = true → bWrite st p = (st, true)) :=
  ⟨WriterWrite_flag_eq_err, bErrorProbe_eq, bFlush_sticky, bWrite_sticky⟩

/-- C6 (witness): the sticky branches at a concrete errored state. -/
theorem c6_sticky_write_errors_witness :
    bFlush ⟨2, false, [5], true, []⟩ = (⟨2, false, [5], true, []⟩, true) ∧
      bWrite ⟨2, false, [5], true, []⟩ [7] = (⟨2, false, [5], true, []⟩, true) :=
  ⟨c6_sticky_write_errors.2.2.1 ⟨2, false, [5], true, []⟩ rfl,
    c6_sticky_write_errors.2.2.2 ⟨2, false, [5], true, []⟩ [7] rfl⟩

/-- C7: `Writer.Flush` is idempotent — flushing twice with no
intervening write leaves the same sink state as flushing once, and in
particular sends no additional bytes downstream. -/
theorem c7_flush_idempotent :
    ∀ st : BufioWriter, wFlush (wFlush st) = wFlush st ∧
      (wFlush (wFlush st)).out = (wFlush st).out := by
  intro st
  have h : wFlush (wFlush st) = wFlush st := by
    unfold wFlush bFlush
    split_ifs <;> simp_all
  exact ⟨h, by rw [h]⟩

/-- C8 (counterexample): the two-character delimiter value `ab` is not
rejected — `utf8.DecodeLastRuneInString` returns its last character
with size 1, so configuration succeeds with symbol `b` instead of
failing fatally. -/
theorem c8_multichar_not_rejected : configSymbol [97, 98] = some 98 := by decide

/-- C8 (amended): configuration of a delimiter/quote/escape symbol
fails fatally iff the flag value is the empty string; any non-empty
value — including one of several characters — is accepted, the
rune-revision `main` silently using its last decoded rune and the
string-revision `main` installing the value unchanged. -/
theorem c8_only_empty_rejected :
    (∀ s : List Nat, configSymbol s = none ↔ s = []) ∧
    (∀ s : List Nat, s ≠ [] → configSymbol s = some (utf8DecodeLastRune s).1) ∧
    configDelimiterS [97, 98] = [97, 98] := by
  refine ⟨fun s => ⟨?_, ?_⟩, fun s hne => ?_, by decide⟩
  · intro h
    by_contra hne
    unfold configSymbol at h
    rw [if_neg (utf8DecodeLastRune_size_pos s hne)] at h
    simp at h
  · intro h
    subst h
    rfl
  · unfold configSymbol
    rw [if_neg (utf8DecodeLastRune_size_pos s hne)]

/-- C8 (witness): a one-character symbol is accepted as itself. -/
theorem c8_only_empty_rejected_witness :
    configSymbol [97] = some (utf8DecodeLastRune [97]).1 :=
  c8_only_empty_rejected.2.1 [97] (by decide)

/-- C9: in every reachable state of the producer/consumer pipeline the
producer is at most one row ahead of the advance signals of the consumer,
and whenever a fetch step fires (the only step that overwrites the
scan buffer), every row sent so far has been both fully written by the
consumer and acknowledged — so the producer never fetches row i+1
before the advance signal for row i, and the encoder has consumed row
i before its bytes can be overwritten. -/
theorem c9_producer_lockstep :
    (∀ s : PipeSt, PipeReach s → s.fetched ≤ s.acked + 1) ∧
    (∀ s t : PipeSt, PipeReach s → PipeStep s t → t.fetched = s.fetched + 1 →
      s.acked = s.fetched ∧ s.written = s.fetched) := by
  constructor
  · intro s hs
    obtain ⟨i1, i2, i3, i4, i5, i6⟩ := pipeInv_holds hs
    cases hp : s.p
    · have := i1 hp
      omega
    · have := i2 hp
      omega
    · have := i3 hp
      omega
  · intro s t hs hstep hf
    obtain ⟨i1, i2, i3, i4, i5, i6⟩ := pipeInv_holds hs
    cases hstep with
    | fetch c f sn wr a =>
      obtain ⟨e1, e2, e3⟩ := i1 rfl
      obtain ⟨e4, e5⟩ := i4 e3
      simp_all
    | send f sn wr a =>
      simp at hf
    | write p f sn wr a =>
      simp at hf
    | ack f sn wr a =>
      simp at hf

/-- C9 (witness): the lock-step facts at the initial state and its
first fetch step. -/
theorem c9_producer_lockstep_witness :
    pipeInit.fetched ≤ pipeInit.acked + 1 ∧
      (pipeInit.acked = pipeInit.fetched ∧ pipeInit.written = pipeInit.fetched) :=
  ⟨c9_producer_lockstep.1 pipeInit PipeReach.init,
    c9_producer_lockstep.2 pipeInit ⟨.readySend, .awaitRecv, 1, 0, 0, 0⟩ PipeReach.init
      (PipeStep.fetch .awaitRecv 0 0 0 0) rfl⟩
